import Mathlib

/-!
Verification of the ech-gui Tauri backend (src-tauri/src): profile store
(config.rs), worker supervisor (process.rs), system proxy controller
(proxy.rs) and the command facade (commands.rs), shallowly embedded in Lean.
Nondeterministic inputs of the code (fresh UUIDs, the outcome of the OS
spawn, the child's stdout lines, registry accessibility, thread
interleavings) are passed as explicit parameters or modelled as predicates
over traces.
-/

namespace EchGui

/-! ### Data model: config.rs -/

/-- `Server` from config.rs: a single server profile. All fields are
free-form strings. -/
structure Server where
  id : String
  name : String
  server : String
  listen : String
  token : String
  ip : String
  dns : String
  ech : String
  routing_mode : String
deriving DecidableEq

/-- `default_routing_mode` from config.rs. -/
def default_routing_mode : String := "bypass_cn"

/-- `Server::default()` from config.rs. `Uuid::new_v4()` is nondeterministic,
so the fresh id is a parameter. -/
def Server.defaultWith (fresh_id : String) : Server :=
  { id := fresh_id
    name := "默认服务器"
    server := "example.com:443"
    listen := "127.0.0.1:30000"
    token := ""
    ip := "saas.sin.fan"
    dns := "dns.alidns.com/dns-query"
    ech := "cloudflare-ech.com"
    routing_mode := "bypass_cn" }

/-- `AppConfig` from config.rs: the profile catalog. -/
structure AppConfig where
  servers : List Server
  current_server_id : Option String
deriving DecidableEq

/-- `ConfigManager::get_current_server` from config.rs. -/
def getCurrentServer (c : AppConfig) : Option Server :=
  match c.current_server_id with
  | some id => c.servers.find? (fun s => s.id == id)
  | none => c.servers.head?

/-- `ConfigManager::delete_server` from config.rs. `retain(|s| s.id != id)`,
then a fresh default profile (`fresh`, standing for `Server::default()`) is
pushed if the vector became empty, then the current id is reassigned to the
first profile if it pointed at the deleted id. Returns the updated config
and the boolean `servers.len() < initial_len` computed at the end. -/
def deleteServer (c : AppConfig) (id : String) (fresh : Server) : AppConfig × Bool :=
  let initial_len := c.servers.length
  let servers1 := c.servers.filter (fun s => s.id != id)
  let servers2 := if servers1.isEmpty then servers1 ++ [fresh] else servers1
  let current :=
    if c.current_server_id = some id then
      servers2.head?.map (fun s => s.id)
    else
      c.current_server_id
  ({ servers := servers2, current_server_id := current }, servers2.length < initial_len)

/-! ### Argument derivation: process.rs, `ProcessManager::start` lines 111-133 -/

/-- The argument vector that `ProcessManager::start` passes to the worker
binary, read off the chain of `cmd.args` calls in process.rs. -/
def buildArgs (s : Server) : List String :=
  (if s.server ≠ "" then ["-f", s.server] else []) ++
  (if s.listen ≠ "" then ["-l", s.listen] else []) ++
  (if s.token ≠ "" then ["-token", s.token] else []) ++
  (if s.ip ≠ "" then ["-ip", s.ip] else []) ++
  (if s.dns ≠ "" ∧ s.dns ≠ "dns.alidns.com/dns-query" then ["-dns", s.dns] else []) ++
  (if s.ech ≠ "" ∧ s.ech ≠ "cloudflare-ech.com" then ["-ech", s.ech] else []) ++
  (if s.routing_mode ≠ "" then ["-routing", s.routing_mode] else [])

/-- The argument vector as the specification words it: the seven pairs in
fixed order, each omitted when its field is empty, `-dns` and `-ech`
additionally omitted when equal to their defaults. -/
def buildArgsSpec (s : Server) : List String :=
  List.flatten
    [ if s.server = "" then [] else ["-f", s.server]
    , if s.listen = "" then [] else ["-l", s.listen]
    , if s.token = "" then [] else ["-token", s.token]
    , if s.ip = "" then [] else ["-ip", s.ip]
    , if s.dns = "" ∨ s.dns = "dns.alidns.com/dns-query" then [] else ["-dns", s.dns]
    , if s.ech = "" ∨ s.ech = "cloudflare-ech.com" then [] else ["-ech", s.ech]
    , if s.routing_mode = "" then [] else ["-routing", s.routing_mode] ]

/-! ### Supervisor state machine: process.rs -/

/-- `ProcessManager` state: the mutex-guarded child slot (a child handle is
modelled by its pid) and the atomic `is_running` flag. -/
structure PMState where
  child : Option Nat
  is_running : Bool
deriving DecidableEq

/-- `ProcessManager::new()`. -/
def PMState.new : PMState := { child := none, is_running := false }

/-- `ProcessManager::start` as a transition on `PMState`: guard on the
running flag, resolve the executable (`exe_found` stands for the outcome of
`find_executable`), spawn (`spawn_result` stands for `cmd.spawn()`), then
set the flag and store the child. The middle component records the argument
vector of the spawn actually performed (`none` when nothing was spawned). -/
def ProcessManager.start (st : PMState) (s : Server)
    (exe_found : Bool) (spawn_result : Except String Nat) :
    PMState × Option (List String) × Except String Unit :=
  if st.is_running then
    (st, none, .error "进程已在运行")
  else if exe_found = false then
    (st, none, .error "找不到 ech-workers 可执行文件")
  else
    match spawn_result with
    | .error e => (st, none, .error ("启动进程失败: " ++ e))
    | .ok pid => ({ child := some pid, is_running := true }, some (buildArgs s), .ok ())

/-- The observable actions performed by `ProcessManager::stop`, in program
order. -/
inductive StopAct where
  | setFlagFalse
  | takeChild
  | termSignal (pid : Nat)
  | tryWait
  | graceForceKill
  | reap
  | emitStopped
deriving DecidableEq

/-- `ProcessManager::stop` as a transition on `PMState`, also returning its
action trace in program order. `exited_early` stands for `try_wait()`
observing that the child already exited; otherwise the code sleeps 500 ms,
force-kills and reaps. The `process-stopped` event is emitted at the end,
and the call always returns `Ok(())`. -/
def ProcessManager.stop (st : PMState) (exited_early : Bool) :
    PMState × List StopAct × Except String Unit :=
  let kill_acts :=
    match st.child with
    | none => []
    | some pid =>
        [StopAct.termSignal pid, StopAct.tryWait] ++
        (if exited_early then [] else [StopAct.graceForceKill, StopAct.reap])
  ({ child := none, is_running := false },
   [StopAct.setFlagFalse, StopAct.takeChild] ++ kill_acts ++ [StopAct.emitStopped],
   .ok ())

/-! ### Event traces of a run: process.rs lines 151-177

After a successful spawn, the main thread spawns the stdout reader thread
(line 159) and then emits `process-started` (line 176); the reader thread
concurrently emits one `log-output` per line read from the child's stdout.
The observable event traces of a run are therefore the interleavings of the
main thread's `[started]` with the reader's log events. -/

/-- UI events emitted by the supervisor. -/
inductive Ev where
  | started
  | stopped
  | log (line : String)
deriving DecidableEq

/-- `isMerge xs ys t` holds when `t` is an interleaving of the two
sequences `xs` and `ys` (each kept in order). -/
def isMerge : List Ev → List Ev → List Ev → Bool
  | xs, ys, [] => xs.isEmpty && ys.isEmpty
  | xs, ys, z :: zs =>
    (match xs with
     | x :: xs' => decide (x = z) && isMerge xs' ys zs
     | [] => false) ||
    (match ys with
     | y :: ys' => decide (y = z) && isMerge xs ys' zs
     | [] => false)

/-- The complete event traces of a successful start whose child writes
`lines` to stdout: interleavings of the main thread's single
`process-started` emission with the reader thread's `log-output` emissions.
The reader thread is spawned before `process-started` is emitted, so no
ordering constraint relates the two threads' emissions. -/
def startRunTrace (lines : List String) (t : List Ev) : Bool :=
  isMerge [Ev.started] (lines.map Ev.log) t

/-- No `log-output` event occurs before the first `process-started`. -/
def noLogBeforeStarted : List Ev → Bool
  | [] => true
  | Ev.started :: _ => true
  | Ev.log _ :: _ => false
  | Ev.stopped :: rest => noLogBeforeStarted rest

/-! ### Command facade: commands.rs -/

/-- `start_process` from commands.rs: fetch the current profile, refuse on a
missing profile or an empty `server`/`listen`, otherwise delegate to
`ProcessManager::start`. -/
def start_process (cfg : AppConfig) (pm : PMState)
    (exe_found : Bool) (spawn_result : Except String Nat) :
    PMState × Option (List String) × Except String String :=
  match getCurrentServer cfg with
  | none => (pm, none, .error "没有选择服务器")
  | some s =>
    if s.server = "" then (pm, none, .error "请输入服务地址")
    else if s.listen = "" then (pm, none, .error "请输入监听地址")
    else
      match ProcessManager.start pm s exe_found spawn_result with
      | (pm', spawned, .ok _) => (pm', spawned, .ok ("已启动服务器: " ++ s.name))
      | (pm', spawned, .error e) => (pm', spawned, .error e)

/-! ### System proxy controller: proxy.rs (Windows paths) -/

/-- A Windows registry value: REG_DWORD or REG_SZ. -/
inductive RegVal where
  | dword (n : Nat)
  | str (s : String)
deriving DecidableEq

/-- The user-hive `Internet Settings` key: whether opening it succeeds, and
its named values. -/
structure Registry where
  openable : Bool
  values : List (String × RegVal)
deriving DecidableEq

/-- `RegKey::set_value`: replace or insert the named value. -/
def setValue (vs : List (String × RegVal)) (k : String) (v : RegVal) :
    List (String × RegVal) :=
  vs.filter (fun p => p.1 != k) ++ [(k, v)]

/-- `RegKey::get_value`: look up the named value. -/
def getValue (vs : List (String × RegVal)) (k : String) : Option RegVal :=
  (vs.find? (fun p => p.1 == k)).map Prod.snd

/-- The two user-session refresh notifications broadcast by
`notify_windows_proxy_change`. -/
inductive WinNotify where
  | settingsChanged
  | refresh
deriving DecidableEq

/-- `parse_listen_addr` from proxy.rs: split at the rightmost `:`; with no
`:` the whole input is the port and the host is `127.0.0.1`. This helper
performs the rightmost split on the character list. -/
def splitAtLastColon : List Char → Option (List Char × List Char)
  | [] => none
  | c :: cs =>
    match splitAtLastColon cs with
    | some (h, p) => some (c :: h, p)
    | none => if c = ':' then some ([], cs) else none

/-- `parse_listen_addr` from proxy.rs (it returns `Result` but never
errs). -/
def parse_listen_addr (addr : String) : Except String (String × String) :=
  match splitAtLastColon addr.data with
  | some (h, p) => .ok (String.mk h, String.mk p)
  | none => .ok ("127.0.0.1", addr)

/-- The `ProxyOverride` bypass list written by `set_windows_proxy`. -/
def windowsBypassList : String :=
  "localhost;127.*;10.*;172.16.*;172.17.*;172.18.*;172.19.*;172.20.*;172.21.*;172.22.*;172.23.*;172.24.*;172.25.*;172.26.*;172.27.*;172.28.*;172.29.*;172.30.*;172.31.*;192.168.*;<local>"

/-- `set_windows_proxy` from proxy.rs: open the `Internet Settings` key; on
enable write `ProxyServer`, `ProxyEnable = 1`, `ProxyOverride`, then
broadcast the two refresh notifications; on disable write `ProxyEnable = 0`
and broadcast the same two notifications. -/
def set_windows_proxy (enabled : Bool) (listen_addr : String) (reg : Registry) :
    Registry × List WinNotify × Except String String :=
  if reg.openable = false then
    (reg, [], .error "打开注册表失败")
  else if enabled then
    match parse_listen_addr listen_addr with
    | .error e => (reg, [], .error e)
    | .ok (host, port) =>
      let proxy_server := host ++ ":" ++ port
      let vs1 := setValue reg.values "ProxyServer" (.str proxy_server)
      let vs2 := setValue vs1 "ProxyEnable" (.dword 1)
      let vs3 := setValue vs2 "ProxyOverride" (.str windowsBypassList)
      ({ reg with values := vs3 },
       [WinNotify.settingsChanged, WinNotify.refresh],
       .ok ("已设置系统代理: " ++ proxy_server))
  else
    ({ reg with values := setValue reg.values "ProxyEnable" (.dword 0) },
     [WinNotify.settingsChanged, WinNotify.refresh],
     .ok "已关闭系统代理")

/-- `get_windows_proxy_status` from proxy.rs: true iff the key opens, holds
a `ProxyEnable` DWORD, and that DWORD equals 1. -/
def get_windows_proxy_status (reg : Registry) : Bool :=
  if reg.openable then
    match getValue reg.values "ProxyEnable" with
    | some (.dword n) => n == 1
    | _ => false
  else false

/-! ### Persisted document: config.rs `save` / `load_from_path`

`save` pretty-prints the catalog with serde_json and writes it;
`load_from_path` reads the file and parses it. The textual layer
(printing/parsing) is serde_json, external to this repository; the document
is modelled at the JSON-tree level, and the serializers derived by serde for
`Server` and `AppConfig` (field names, `#[serde(default)]` attributes) are
embedded explicitly. -/

/-- JSON values, as far as the persisted document needs them. -/
inductive Json where
  | null
  | str (s : String)
  | arr (xs : List Json)
  | obj (fields : List (String × Json))

/-- Field lookup in a JSON object. -/
def getField (fs : List (String × Json)) (k : String) : Option Json :=
  (fs.find? (fun p => p.1 == k)).map Prod.snd

/-- Read a JSON value as a string. -/
def Json.asStr : Json → Option String
  | .str s => some s
  | _ => none

/-- A `#[serde(default)]` string field: missing yields the default, present
must be a string. -/
def strFieldD (fs : List (String × Json)) (k : String) (d : String) : Option String :=
  match getField fs k with
  | none => some d
  | some j => j.asStr

/-- The serde serialization of `Server`, fields in declaration order. -/
def Server.toJson (s : Server) : Json :=
  .obj
    [ ("id", .str s.id)
    , ("name", .str s.name)
    , ("server", .str s.server)
    , ("listen", .str s.listen)
    , ("token", .str s.token)
    , ("ip", .str s.ip)
    , ("dns", .str s.dns)
    , ("ech", .str s.ech)
    , ("routing_mode", .str s.routing_mode) ]

/-- The serde deserialization of `Server`: `id` and `name` required, the
other string fields `#[serde(default)]` (empty), `routing_mode` defaulting
to `"bypass_cn"`. -/
def Server.fromJson : Json → Option Server
  | .obj fs => do
    let id ← (getField fs "id").bind Json.asStr
    let name ← (getField fs "name").bind Json.asStr
    let server ← strFieldD fs "server" ""
    let listen ← strFieldD fs "listen" ""
    let token ← strFieldD fs "token" ""
    let ip ← strFieldD fs "ip" ""
    let dns ← strFieldD fs "dns" ""
    let ech ← strFieldD fs "ech" ""
    let routing_mode ← strFieldD fs "routing_mode" default_routing_mode
    some { id, name, server, listen, token, ip, dns, ech, routing_mode }
  | _ => none

/-- The serde serialization of `AppConfig`. -/
def AppConfig.toJson (c : AppConfig) : Json :=
  .obj
    [ ("servers", .arr (c.servers.map Server.toJson))
    , ("current_server_id",
        match c.current_server_id with
        | some i => .str i
        | none => .null) ]

/-- Elementwise deserialization of the `servers` array (serde's `Vec`
deserialization: every element must parse). -/
def parseServers : List Json → Option (List Server)
  | [] => some []
  | x :: xs => do
    let s ← Server.fromJson x
    let rest ← parseServers xs
    some (s :: rest)

/-- The serde deserialization of `AppConfig`: `servers` is a required array
of profiles, `current_server_id` an optional nullable string. -/
def AppConfig.fromJson (j : Json) : Option AppConfig :=
  match j with
  | .obj fs => do
    let servers ←
      match getField fs "servers" with
      | some (.arr xs) => parseServers xs
      | _ => none
    let current ←
      match getField fs "current_server_id" with
      | none => some none
      | some .null => some none
      | some (.str i) => some (some i)
      | some _ => none
    some { servers := servers, current_server_id := current }
  | _ => none

/-- `ConfigManager::save`: the document written to disk. -/
def save (c : AppConfig) : Json := c.toJson

/-- `ConfigManager::load_from_path`: `none` when the file is absent,
otherwise parse the document (parse failure yields `None` in the source). -/
def load_from_path (file : Option Json) : Option AppConfig :=
  file.bind AppConfig.fromJson

/-! ### Helper lemmas -/

lemma splitAtLastColon_of_not_mem (cs : List Char) (h : ':' ∉ cs) :
    splitAtLastColon cs = none := by
  induction cs with
  | nil => rfl
  | cons c cs ih =>
    simp only [List.mem_cons, not_or] at h
    have hc : ¬ c = ':' := fun hc => h.1 hc.symm
    simp [splitAtLastColon, ih h.2, hc]

lemma splitAtLastColon_append (pre suf : List Char) (h : ':' ∉ suf) :
    splitAtLastColon (pre ++ ':' :: suf) = some (pre, suf) := by
  induction pre with
  | nil => simp [splitAtLastColon, splitAtLastColon_of_not_mem suf h]
  | cons c pre ih => simp [splitAtLastColon, ih]

lemma getValue_setValue_self (vs : List (String × RegVal)) (k : String) (v : RegVal) :
    getValue (setValue vs k v) k = some v := by
  simp only [getValue, setValue, List.find?_append]
  have h1 : (vs.filter (fun p => p.1 != k)).find? (fun p => p.1 == k) = none := by
    rw [List.find?_eq_none]
    intro x hx
    have hne := List.of_mem_filter hx
    simp only [bne_iff_ne, ne_eq, decide_eq_true_eq] at hne
    simp [hne]
  rw [h1]
  simp

/-! ### Claim theorems -/

/-- Claim C2: the argument vector derived by `start` is a pure function of
the profile's argument-bearing fields, with the pairs in the fixed order
`-f -l -token -ip -dns -ech -routing`, each omitted when its field is
empty, and `-dns`/`-ech` additionally omitted when equal to their defaults;
the happy-path profile (server `relay:443`, listen `127.0.0.1:30000`, token
`t`, other fields default) yields exactly
`-f relay:443 -l 127.0.0.1:30000 -token t -ip saas.sin.fan -routing
bypass_cn`. -/
theorem C2_argument_derivation :
    (∀ s : Server, buildArgs s = buildArgsSpec s) ∧
    buildArgs { Server.defaultWith "p1" with server := "relay:443", token := "t" } =
      ["-f", "relay:443", "-l", "127.0.0.1:30000", "-token", "t",
       "-ip", "saas.sin.fan", "-routing", "bypass_cn"] := by
  constructor
  · intro s
    simp only [buildArgs, buildArgsSpec, ne_eq, ← not_or, ite_not,
      List.flatten, List.append_nil, List.append_assoc]
  · decide

/-- Claim C5: `stop()` never returns an error, sends the caller to Idle
from every state (so Idle stays Idle and Running becomes Idle), and is
idempotent: two consecutive stops leave the same state as one. -/
theorem C5_stop_idempotent :
    (∀ (st : PMState) (ex : Bool), (ProcessManager.stop st ex).2.2 = Except.ok ()) ∧
    (∀ ex : Bool, (ProcessManager.stop PMState.new ex).1 = PMState.new) ∧
    (∀ (st : PMState) (ex : Bool),
      (ProcessManager.stop st ex).1 = { child := none, is_running := false }) ∧
    (∀ (st : PMState) (ex ex' : Bool),
      (ProcessManager.stop (ProcessManager.stop st ex).1 ex').1 =
        (ProcessManager.stop st ex).1) :=
  ⟨fun _ _ => rfl, fun _ => rfl, fun _ _ => rfl, fun _ _ _ => rfl⟩

/-- Claim C7: `parse_listen_addr` splits at the rightmost `:` into
(host, port); with no `:` the host is `127.0.0.1` and the whole input is
the port; in particular `"8080"` gives `("127.0.0.1", "8080")` and
`"[::1]:30000"` gives `("[::1]", "30000")`. -/
theorem C7_parse_listen_addr :
    (∀ addr : String, ':' ∉ addr.data →
      parse_listen_addr addr = .ok ("127.0.0.1", addr)) ∧
    (∀ pre suf : List Char, ':' ∉ suf →
      parse_listen_addr (String.mk (pre ++ ':' :: suf)) =
        .ok (String.mk pre, String.mk suf)) ∧
    parse_listen_addr "8080" = .ok ("127.0.0.1", "8080") ∧
    parse_listen_addr "[::1]:30000" = .ok ("[::1]", "30000") := by
  refine ⟨?_, ?_, ?_, ?_⟩
  · intro addr h
    simp [parse_listen_addr, splitAtLastColon_of_not_mem addr.data h]
  · intro pre suf h
    simp [parse_listen_addr, splitAtLastColon_append pre suf h]
  · rfl
  · rfl

/-- Claim C7 witness: the rightmost-split branches at concrete inputs. -/
theorem C7_parse_listen_addr_witness :
    parse_listen_addr "8080" = .ok ("127.0.0.1", "8080") ∧
    parse_listen_addr (String.mk (['h', 'o', 's', 't'] ++ ':' :: ['1'])) =
      .ok (String.mk ['h', 'o', 's', 't'], String.mk ['1']) :=
  ⟨C7_parse_listen_addr.1 "8080" (by decide),
   C7_parse_listen_addr.2.1 ['h', 'o', 's', 't'] ['1'] (by decide)⟩

/-- Claim C10: `get_current_server` returns the profile with the current id
when that id is set and present, falls back to the first profile when no id
is set, and returns `none` (without falling back) when the set id is absent
from the catalog. -/
theorem C10_get_current_server :
    (∀ (c : AppConfig) (i : String), c.current_server_id = some i →
      (∃ s ∈ c.servers, s.id = i) →
      ∃ r, getCurrentServer c = some r ∧ r ∈ c.servers ∧ r.id = i) ∧
    (∀ c : AppConfig, c.current_server_id = none →
      getCurrentServer c = c.servers.head?) ∧
    (∀ (c : AppConfig) (i : String), c.current_server_id = some i →
      (∀ s ∈ c.servers, s.id ≠ i) → getCurrentServer c = none) := by
  refine ⟨?_, ?_, ?_⟩
  · intro c i hcur ⟨s, hs, hsi⟩
    unfold getCurrentServer
    rw [hcur]
    have hsome : (c.servers.find? (fun s => s.id == i)).isSome := by
      rw [List.find?_isSome]
      exact ⟨s, hs, by simp [hsi]⟩
    obtain ⟨r, hr⟩ := Option.isSome_iff_exists.mp hsome
    refine ⟨r, hr, List.mem_of_find?_eq_some hr, ?_⟩
    have := List.find?_some hr
    simpa using this
  · intro c hcur
    unfold getCurrentServer
    rw [hcur]
  · intro c i hcur habs
    unfold getCurrentServer
    rw [hcur, List.find?_eq_none]
    intro s hs
    simp [habs s hs]

/-- Claim C10 witness: a two-profile catalog exercising all three branches
(current id present, current id unset, current id absent). -/
theorem C10_get_current_server_witness :
    (∃ r, getCurrentServer
        { servers := [Server.defaultWith "a", Server.defaultWith "b"],
          current_server_id := some "b" } = some r ∧
      r ∈ [Server.defaultWith "a", Server.defaultWith "b"] ∧ r.id = "b") ∧
    getCurrentServer
        { servers := [Server.defaultWith "a", Server.defaultWith "b"],
          current_server_id := none } =
      [Server.defaultWith "a", Server.defaultWith "b"].head? ∧
    getCurrentServer
        { servers := [Server.defaultWith "a", Server.defaultWith "b"],
          current_server_id := some "zzz" } = none :=
  ⟨C10_get_current_server.1 _ "b" rfl ⟨Server.defaultWith "b", by decide, by decide⟩,
   C10_get_current_server.2.1 _ rfl,
   C10_get_current_server.2.2 _ "zzz" rfl (by decide)⟩

/-- The supervisor invariant: the atomic running flag equals whether the
child slot holds a child. -/
def pmInv (st : PMState) : Prop := st.is_running = st.child.isSome

/-- Claim C3: `pmInv` holds initially, is preserved by `start` (under any
resolver/spawn outcome) and by `stop`, a successful spawn sets the flag to
true, and under the invariant `is_running()` is true iff a child handle is
held. -/
theorem C3_running_flag_invariant :
    pmInv PMState.new ∧
    (∀ (st : PMState) (s : Server) (exe : Bool) (spawn : Except String Nat),
      pmInv st →
      pmInv (ProcessManager.start st s exe spawn).1 ∧
      ((ProcessManager.start st s exe spawn).2.2 = .ok () →
        (ProcessManager.start st s exe spawn).1.is_running = true)) ∧
    (∀ (st : PMState) (ex : Bool), pmInv (ProcessManager.stop st ex).1) ∧
    (∀ st : PMState, pmInv st → (st.is_running = true ↔ st.child.isSome = true)) := by
  refine ⟨rfl, ?_, fun st ex => rfl, fun st h => by rw [h]⟩
  intro st s exe spawn hinv
  unfold ProcessManager.start
  by_cases hr : st.is_running
  · simp only [hr, if_true]
    exact ⟨hinv, by simp⟩
  · simp only [hr, if_false, Bool.false_eq_true]
    by_cases he : exe = false
    · simp only [he, if_true]
      exact ⟨hinv, by simp⟩
    · simp only [he, if_false]
      cases spawn with
      | error e => exact ⟨hinv, by simp⟩
      | ok pid => exact ⟨rfl, fun _ => rfl⟩

/-- Claim C3 witness: the invariant at the initial state, across a
successful start, across a stop, and the iff at the started state. -/
theorem C3_running_flag_invariant_witness :
    (pmInv (ProcessManager.start PMState.new (Server.defaultWith "a") true
        (.ok 7)).1 ∧
      ((ProcessManager.start PMState.new (Server.defaultWith "a") true
          (.ok 7)).2.2 = .ok () →
        (ProcessManager.start PMState.new (Server.defaultWith "a") true
            (.ok 7)).1.is_running = true)) ∧
    (({ child := some 7, is_running := true } : PMState).is_running = true ↔
      (some 7 : Option Nat).isSome = true) :=
  ⟨C3_running_flag_invariant.2.1 PMState.new (Server.defaultWith "a") true
      (.ok 7) rfl,
   C3_running_flag_invariant.2.2.2 { child := some 7, is_running := true } rfl⟩

/-- Claim C6: when the current profile has an empty `server` or `listen`,
`start_process` returns the corresponding error, performs no spawn (the
supervisor state is returned untouched, spawn record `none`), and
`is_running` stays false. -/
theorem C6_start_refuses_incomplete :
    ∀ (cfg : AppConfig) (pm : PMState) (s : Server) (exe : Bool)
      (spawn : Except String Nat),
      getCurrentServer cfg = some s →
      (s.server = "" ∨ s.listen = "") →
      pm.is_running = false →
      (start_process cfg pm exe spawn = (pm, none, .error "请输入服务地址") ∨
       start_process cfg pm exe spawn = (pm, none, .error "请输入监听地址")) ∧
      (start_process cfg pm exe spawn).1.is_running = false := by
  intro cfg pm s exe spawn hcur hempty hrun
  unfold start_process
  rw [hcur]
  rcases hempty with h | h
  · simp [h, hrun]
  · by_cases hs : s.server = ""
    · simp [hs, hrun]
    · simp [hs, h, hrun]

/-- Claim C6 witness: a catalog whose only profile has an empty `server`. -/
theorem C6_start_refuses_incomplete_witness :
    (start_process
        { servers := [{ Server.defaultWith "a" with server := "" }],
          current_server_id := some "a" }
        PMState.new true (.ok 7) =
        (PMState.new, none, .error "请输入服务地址") ∨
     start_process
        { servers := [{ Server.defaultWith "a" with server := "" }],
          current_server_id := some "a" }
        PMState.new true (.ok 7) =
        (PMState.new, none, .error "请输入监听地址")) ∧
    (start_process
        { servers := [{ Server.defaultWith "a" with server := "" }],
          current_server_id := some "a" }
        PMState.new true (.ok 7)).1.is_running = false :=
  C6_start_refuses_incomplete _ PMState.new
    { Server.defaultWith "a" with server := "" } true (.ok 7)
    (by decide) (Or.inl rfl) rfl

/-- Claim C9: whenever the Windows disable path succeeds it has written
`ProxyEnable = 0` and broadcast exactly the two refresh notifications, and
a subsequent `get_windows_proxy_status` returns false; on any registry
whose key opens, the status reads true iff the `ProxyEnable` value is the
DWORD 1. -/
theorem C9_windows_disable :
    (∀ (reg reg' : Registry) (addr msg : String) (evs : List WinNotify),
      set_windows_proxy false addr reg = (reg', evs, .ok msg) →
      getValue reg'.values "ProxyEnable" = some (.dword 0) ∧
      evs = [WinNotify.settingsChanged, WinNotify.refresh] ∧
      get_windows_proxy_status reg' = false) ∧
    (∀ reg : Registry, reg.openable = true →
      (get_windows_proxy_status reg = true ↔
        getValue reg.values "ProxyEnable" = some (.dword 1))) := by
  constructor
  · intro reg reg' addr msg evs h
    unfold set_windows_proxy at h
    by_cases ho : reg.openable = false
    · rw [if_pos ho] at h
      simp at h
    · rw [if_neg ho] at h
      simp only [Bool.false_eq_true, if_false, Prod.mk.injEq] at h
      obtain ⟨hreg, hevs, hmsg⟩ := h
      subst hreg
      subst hevs
      have ht : reg.openable = true := by revert ho; cases reg.openable <;> simp
      refine ⟨getValue_setValue_self .., rfl, ?_⟩
      unfold get_windows_proxy_status
      simp [ht, getValue_setValue_self]
  · intro reg hopen
    unfold get_windows_proxy_status
    rw [hopen]
    simp only [if_true]
    cases hv : getValue reg.values "ProxyEnable" with
    | none => simp
    | some v => cases v <;> simp

/-- Claim C9 witness: a concrete registry where disable succeeds, and the
status iff on a registry holding `ProxyEnable = 1`. -/
theorem C9_windows_disable_witness :
    (getValue
        (Registry.mk true
          (setValue [("ProxyEnable", RegVal.dword 1)] "ProxyEnable"
            (RegVal.dword 0))).values
        "ProxyEnable" = some (.dword 0) ∧
      [WinNotify.settingsChanged, WinNotify.refresh] =
        [WinNotify.settingsChanged, WinNotify.refresh] ∧
      get_windows_proxy_status
        (Registry.mk true
          (setValue [("ProxyEnable", RegVal.dword 1)] "ProxyEnable"
            (RegVal.dword 0))) = false) ∧
    (get_windows_proxy_status (Registry.mk true [("ProxyEnable", RegVal.dword 1)]) = true ↔
      getValue [("ProxyEnable", RegVal.dword 1)] "ProxyEnable" =
        some (.dword 1)) :=
  ⟨C9_windows_disable.1 (Registry.mk true [("ProxyEnable", RegVal.dword 1)]) _
      "127.0.0.1:30000" "已关闭系统代理" _ rfl,
   C9_windows_disable.2 (Registry.mk true [("ProxyEnable", RegVal.dword 1)]) rfl⟩

lemma isMerge_filter_right (p : Ev → Bool) :
    ∀ (t xs ys : List Ev), isMerge xs ys t = true →
      (∀ x ∈ xs, p x = false) → (∀ y ∈ ys, p y = true) →
      t.filter p = ys := by
  intro t
  induction t with
  | nil =>
    intro xs ys h _ _
    cases xs <;> cases ys <;> simp_all [isMerge]
  | cons z zs ih =>
    intro xs ys h hx hy
    cases xs with
    | nil =>
      cases ys with
      | nil => simp [isMerge] at h
      | cons y ys' =>
        simp only [isMerge, Bool.false_or, Bool.and_eq_true, decide_eq_true_eq] at h
        obtain ⟨rfl, hm⟩ := h
        have hpy : p y = true := hy y (List.mem_cons_self y ys')
        rw [List.filter_cons, if_pos (by rw [hpy])]
        rw [ih [] ys' hm hx (fun a ha => hy a (List.mem_cons_of_mem y ha))]
    | cons x xs' =>
      cases ys with
      | nil =>
        simp only [isMerge, Bool.or_false, Bool.and_eq_true, decide_eq_true_eq] at h
        obtain ⟨rfl, hm⟩ := h
        have hpx : p x = false := hx x (List.mem_cons_self x xs')
        rw [List.filter_cons, if_neg (by rw [hpx]; simp)]
        exact ih xs' [] hm (fun a ha => hx a (List.mem_cons_of_mem x ha)) hy
      | cons y ys' =>
        simp only [isMerge, Bool.or_eq_true, Bool.and_eq_true, decide_eq_true_eq] at h
        rcases h with ⟨rfl, hm⟩ | ⟨rfl, hm⟩
        · have hpx : p x = false := hx x (List.mem_cons_self x xs')
          rw [List.filter_cons, if_neg (by rw [hpx]; simp)]
          exact ih xs' (y :: ys') hm
            (fun a ha => hx a (List.mem_cons_of_mem x ha)) hy
        · have hpy : p y = true := hy y (List.mem_cons_self y ys')
          rw [List.filter_cons, if_pos (by rw [hpy])]
          rw [ih (x :: xs') ys' hm hx
            (fun a ha => hy a (List.mem_cons_of_mem y ha))]

lemma isMerge_filter_left (p : Ev → Bool) :
    ∀ (t xs ys : List Ev), isMerge xs ys t = true →
      (∀ x ∈ xs, p x = true) → (∀ y ∈ ys, p y = false) →
      t.filter p = xs := by
  intro t
  induction t with
  | nil =>
    intro xs ys h _ _
    cases xs <;> cases ys <;> simp_all [isMerge]
  | cons z zs ih =>
    intro xs ys h hx hy
    cases xs with
    | nil =>
      cases ys with
      | nil => simp [isMerge] at h
      | cons y ys' =>
        simp only [isMerge, Bool.false_or, Bool.and_eq_true, decide_eq_true_eq] at h
        obtain ⟨rfl, hm⟩ := h
        have hpy : p y = false := hy y (List.mem_cons_self y ys')
        rw [List.filter_cons, if_neg (by rw [hpy]; simp)]
        exact ih [] ys' hm hx (fun a ha => hy a (List.mem_cons_of_mem y ha))
    | cons x xs' =>
      cases ys with
      | nil =>
        simp only [isMerge, Bool.or_false, Bool.and_eq_true, decide_eq_true_eq] at h
        obtain ⟨rfl, hm⟩ := h
        have hpx : p x = true := hx x (List.mem_cons_self x xs')
        rw [List.filter_cons, if_pos (by rw [hpx])]
        rw [ih xs' [] hm (fun a ha => hx a (List.mem_cons_of_mem x ha)) hy]
      | cons y ys' =>
        simp only [isMerge, Bool.or_eq_true, Bool.and_eq_true, decide_eq_true_eq] at h
        rcases h with ⟨rfl, hm⟩ | ⟨rfl, hm⟩
        · have hpx : p x = true := hx x (List.mem_cons_self x xs')
          rw [List.filter_cons, if_pos (by rw [hpx])]
          rw [ih xs' (y :: ys') hm
            (fun a ha => hx a (List.mem_cons_of_mem x ha)) hy]
        · have hpy : p y = false := hy y (List.mem_cons_self y ys')
          rw [List.filter_cons, if_neg (by rw [hpy]; simp)]
          exact ih (x :: xs') ys' hm hx
            (fun a ha => hy a (List.mem_cons_of_mem y ha))

/-- Whether an event is a `log-output`. -/
def Ev.isLog : Ev → Bool
  | .log _ => true
  | _ => false

/-- Claim C1, counterexample: the reader thread is spawned (process.rs
line 159) before `process-started` is emitted (line 176), so the trace in
which the reader emits its `log-output` first is a legal interleaving of a
successful run, and in it `process-started` is not before the
`log-output`. -/
theorem C1_counterexample :
    startRunTrace ["x"] [Ev.log "x", Ev.started] = true ∧
    noLogBeforeStarted [Ev.log "x", Ev.started] = false := by
  decide

/-- Claim C1 as amended: in every complete trace of a successful run,
`process-started` is emitted exactly once and the `log-output` events are
exactly the captured stdout lines in order, but `process-started` need not
precede them (the reader thread is spawned before the event is emitted);
`process-stopped` is emitted by `stop` strictly after the termination of
the child completes (it is the last action of the stop sequence). -/
theorem C1_event_ordering_amended :
    (∀ (lines : List String) (t : List Ev),
      startRunTrace lines t = true →
      t.filter (fun e => decide (e = Ev.started)) = [Ev.started] ∧
      t.filter Ev.isLog = lines.map Ev.log) ∧
    (∀ (st : PMState) (ex : Bool),
      ((ProcessManager.stop st ex).2.1).getLast? = some StopAct.emitStopped) := by
  constructor
  · intro lines t h
    constructor
    · exact isMerge_filter_left _ t [Ev.started] (lines.map Ev.log) h
        (by intro x hx; simp at hx; simp [hx])
        (by intro y hy; simp at hy; obtain ⟨l, _, rfl⟩ := hy; simp)
    · exact isMerge_filter_right _ t [Ev.started] (lines.map Ev.log) h
        (by intro x hx; simp at hx; simp [hx, Ev.isLog])
        (by intro y hy; simp at hy; obtain ⟨l, _, rfl⟩ := hy; simp [Ev.isLog])
  · intro st ex
    unfold ProcessManager.stop
    exact List.getLast?_concat _

/-- Claim C1 amended, witness: the trace where the log line arrives after
`process-started`, and a stop from a running state. -/
theorem C1_event_ordering_amended_witness :
    ([Ev.started, Ev.log "x"].filter (fun e => decide (e = Ev.started)) =
        [Ev.started] ∧
      [Ev.started, Ev.log "x"].filter Ev.isLog = ["x"].map Ev.log) ∧
    ((ProcessManager.stop { child := some 7, is_running := true } false).2.1).getLast? =
      some StopAct.emitStopped :=
  ⟨C1_event_ordering_amended.1 ["x"] [Ev.started, Ev.log "x"] (by decide),
   C1_event_ordering_amended.2 { child := some 7, is_running := true } false⟩

lemma filter_ids_of_not_mem (l : List Server) (i : String)
    (h : ∀ s ∈ l, s.id ≠ i) : l.filter (fun s => s.id != i) = l :=
  List.filter_eq_self.mpr (fun s hs => by simp [bne_iff_ne, h s hs])

lemma filter_ids_length_of_mem (l : List Server) (i : String)
    (hn : (l.map Server.id).Nodup) (he : ∃ s ∈ l, s.id = i) :
    (l.filter (fun s => s.id != i)).length = l.length - 1 := by
  induction l with
  | nil => simp at he
  | cons a l ih =>
    simp only [List.map_cons, List.nodup_cons] at hn
    obtain ⟨ha, hn'⟩ := hn
    by_cases hai : a.id = i
    · have hl : ∀ s ∈ l, s.id ≠ i := by
        intro s hs hsi
        exact ha (by rw [hai, ← hsi]; exact List.mem_map_of_mem Server.id hs)
      rw [List.filter_cons, if_neg (by simp [hai]), filter_ids_of_not_mem l i hl]
      simp
    · obtain ⟨s, hs, hsi⟩ := he
      rcases List.mem_cons.mp hs with rfl | hs'
      · exact absurd hsi hai
      · rw [List.filter_cons, if_pos (by simp [bne_iff_ne, hai])]
        simp only [List.length_cons]
        rw [ih hn' ⟨s, hs', hsi⟩]
        have h1 : 0 < l.length := List.length_pos.mpr (List.ne_nil_of_mem hs')
        omega

/-- Claim C4, counterexample: on the empty catalog, deleting an absent id
does not leave the catalog unchanged — `delete_server` inserts a fresh
default profile. -/
theorem C4_counterexample :
    (∀ s ∈ ([] : List Server), s.id ≠ "a") ∧
    (deleteServer { servers := [], current_server_id := none } "a"
        (Server.defaultWith "f")).1 ≠
      { servers := [], current_server_id := none } := by
  constructor
  · intro s hs
    cases hs
  · decide

/-- Claim C4 as amended: for every catalog that is nonempty, has pairwise
distinct ids, and whose current id (when set) refers to a present profile,
`delete(i)` leaves the catalog unchanged when `i` is absent; when `i` is
present the new size is `max(|C|-1, 1)`, the current id (when set) refers
to a profile of the result, and when the deleted profile was current the
current id is reassigned to the first profile of the result. -/
theorem C4_delete_amended :
    ∀ (c : AppConfig) (i : String) (fresh : Server),
      c.servers ≠ [] →
      (c.servers.map Server.id).Nodup →
      (∀ j, c.current_server_id = some j → ∃ s ∈ c.servers, s.id = j) →
      ((∀ s ∈ c.servers, s.id ≠ i) → deleteServer c i fresh = (c, false)) ∧
      ((∃ s ∈ c.servers, s.id = i) →
        (deleteServer c i fresh).1.servers.length =
          max (c.servers.length - 1) 1 ∧
        (∀ j, (deleteServer c i fresh).1.current_server_id = some j →
          ∃ s ∈ (deleteServer c i fresh).1.servers, s.id = j) ∧
        (c.current_server_id = some i →
          (deleteServer c i fresh).1.current_server_id =
            ((deleteServer c i fresh).1.servers.head?).map (fun s => s.id))) := by
  intro c i fresh hne hnd hcur
  have hdel : deleteServer c i fresh =
      ({ servers :=
           if (c.servers.filter (fun s => s.id != i)).isEmpty then
             c.servers.filter (fun s => s.id != i) ++ [fresh]
           else c.servers.filter (fun s => s.id != i),
         current_server_id :=
           if c.current_server_id = some i then
             ((if (c.servers.filter (fun s => s.id != i)).isEmpty then
                 c.servers.filter (fun s => s.id != i) ++ [fresh]
               else c.servers.filter (fun s => s.id != i)).head?).map
               (fun s => s.id)
           else c.current_server_id },
       decide ((if (c.servers.filter (fun s => s.id != i)).isEmpty then
                  c.servers.filter (fun s => s.id != i) ++ [fresh]
                else c.servers.filter (fun s => s.id != i)).length <
         c.servers.length)) := rfl
  constructor
  · intro habs
    have hfil : c.servers.filter (fun s => s.id != i) = c.servers :=
      filter_ids_of_not_mem c.servers i habs
    have hempty : c.servers.isEmpty = false := by
      cases hs : c.servers with
      | nil => exact absurd hs hne
      | cons a l => rfl
    have hcurne : c.current_server_id ≠ some i := by
      intro hc
      obtain ⟨s, hs, hsi⟩ := hcur i hc
      exact habs s hs hsi
    rw [hdel, hfil]
    simp only [hempty, Bool.false_eq_true, if_false, if_neg hcurne,
      Prod.mk.injEq]
    exact ⟨trivial, by simp⟩
  · intro hmem
    have hlen : (c.servers.filter (fun s => s.id != i)).length =
        c.servers.length - 1 :=
      filter_ids_length_of_mem c.servers i hnd hmem
    have hpos : 0 < c.servers.length := List.length_pos.mpr hne
    by_cases hemp : (c.servers.filter (fun s => s.id != i)).isEmpty
    · have hl1nil : c.servers.filter (fun s => s.id != i) = [] :=
        List.isEmpty_iff.mp hemp
      have hlen1 : c.servers.length = 1 := by
        rw [hl1nil] at hlen
        simp only [List.length_nil] at hlen
        omega
      rw [hdel]
      simp only [hemp, if_true, hl1nil, List.nil_append]
      refine ⟨by simp [hlen1], ?_, ?_⟩
      · intro j hj
        by_cases hci : c.current_server_id = some i
        · rw [if_pos hci] at hj
          have hj' : some fresh.id = some j := hj
          exact ⟨fresh, by simp, Option.some.inj hj'⟩
        · rw [if_neg hci] at hj
          obtain ⟨s, hs, hsj⟩ := hcur j hj
          have hsi : s.id = i := by
            by_contra hne'
            have hmem' : s ∈ c.servers.filter (fun s => s.id != i) :=
              List.mem_filter.mpr ⟨hs, by simp [bne_iff_ne, hne']⟩
            rw [hl1nil] at hmem'
            cases hmem'
          have hij : j = i := by rw [← hsj, hsi]
          exact absurd (hij ▸ hj) hci
      · intro hci
        rw [if_pos hci]
    · have hempf : (c.servers.filter (fun s => s.id != i)).isEmpty = false := by
        revert hemp
        cases (c.servers.filter (fun s => s.id != i)).isEmpty <;> simp
      have hl1ne : c.servers.filter (fun s => s.id != i) ≠ [] := by
        intro h0
        rw [h0] at hempf
        cases hempf
      have hlen2 : 2 ≤ c.servers.length := by
        rcases Nat.lt_or_ge c.servers.length 2 with hlt | hge
        · exfalso
          have h0 : (c.servers.filter (fun s => s.id != i)).length = 0 := by omega
          exact hl1ne (List.length_eq_zero.mp h0)
        · exact hge
      rw [hdel]
      simp only [hempf, Bool.false_eq_true, if_false]
      refine ⟨?_, ?_, ?_⟩
      · rw [hlen, Nat.max_eq_left (by omega)]
      · intro j hj
        by_cases hci : c.current_server_id = some i
        · rw [if_pos hci] at hj
          obtain ⟨s, hs⟩ : ∃ s, (c.servers.filter (fun s => s.id != i)).head? = some s := by
            cases hx : c.servers.filter (fun s => s.id != i) with
            | nil => exact absurd hx hl1ne
            | cons a l => exact ⟨a, rfl⟩
          rw [hs] at hj
          simp only [Option.map_some'] at hj
          exact ⟨s, List.mem_of_mem_head? (hs ▸ Option.mem_def.mpr rfl),
            Option.some.inj hj⟩
        · rw [if_neg hci] at hj
          obtain ⟨s, hs, hsj⟩ := hcur j hj
          have hsi : s.id ≠ i := by
            intro h'
            have hij : j = i := by rw [← hsj, h']
            exact hci (hij ▸ hj)
          exact ⟨s, List.mem_filter.mpr ⟨hs, by simp [bne_iff_ne, hsi]⟩, hsj⟩
      · intro hci
        rw [if_pos hci]

/-- Claim C4 amended, witness: a two-profile catalog; deleting an absent
id leaves it unchanged, and deleting the current profile shrinks it to one
profile with the current id reassigned. -/
theorem C4_delete_amended_witness :
    deleteServer
        { servers := [Server.defaultWith "a", Server.defaultWith "b"],
          current_server_id := some "a" } "zzz" (Server.defaultWith "f") =
      ({ servers := [Server.defaultWith "a", Server.defaultWith "b"],
         current_server_id := some "a" }, false) ∧
    (deleteServer
        { servers := [Server.defaultWith "a", Server.defaultWith "b"],
          current_server_id := some "a" } "a" (Server.defaultWith "f")).1.servers.length =
      max ([Server.defaultWith "a", Server.defaultWith "b"].length - 1) 1 := by
  have hvalid : ∀ j,
      ({ servers := [Server.defaultWith "a", Server.defaultWith "b"],
         current_server_id := some "a" } : AppConfig).current_server_id = some j →
      ∃ s ∈ ({ servers := [Server.defaultWith "a", Server.defaultWith "b"],
               current_server_id := some "a" } : AppConfig).servers, s.id = j := by
    intro j hj
    have hj' : some "a" = some j := hj
    have hja : "a" = j := Option.some.inj hj'
    subst hja
    decide
  exact ⟨(C4_delete_amended _ "zzz" (Server.defaultWith "f") (by decide)
      (by decide) hvalid).1 (by decide),
    ((C4_delete_amended _ "a" (Server.defaultWith "f") (by decide)
      (by decide) hvalid).2 (by decide)).1⟩

lemma Server.fromJson_toJson (s : Server) :
    Server.fromJson (Server.toJson s) = some s := rfl

lemma parseServers_map_toJson (l : List Server) :
    parseServers (l.map Server.toJson) = some l := by
  induction l with
  | nil => rfl
  | cons a l ih =>
    simp [parseServers, Server.fromJson_toJson a, ih]

/-- Claim C8: serializing any catalog with `save` and reloading the written
document with `load_from_path` yields the pre-persist catalog, so persist
followed by reload is the identity on catalogs (hence on the result of any
prior sequence of mutations). -/
theorem C8_persist_reload_identity :
    ∀ c : AppConfig, load_from_path (some (save c)) = some c := by
  intro c
  cases c with
  | mk servers current =>
    cases current with
    | none =>
      have h1 := parseServers_map_toJson servers
      calc load_from_path (some (save { servers := servers, current_server_id := none }))
          = (parseServers (servers.map Server.toJson)).bind
              (fun ss => some { servers := ss, current_server_id := none }) := rfl
        _ = some { servers := servers, current_server_id := none } := by rw [h1]; rfl
    | some i =>
      have h1 := parseServers_map_toJson servers
      calc load_from_path (some (save { servers := servers, current_server_id := some i }))
          = (parseServers (servers.map Server.toJson)).bind
              (fun ss => some { servers := ss, current_server_id := some i }) := rfl
        _ = some { servers := servers, current_server_id := some i } := by rw [h1]; rfl

end EchGui
